import Mathlib

/-!
Verification development for the Elephant data-access layer
(`ElephantBrain.py`): the schema catalog, the create/open/validate
lifecycle, the SELECT/INSERT query builders, the row-to-record mapper
and the CSV bulk importer are shallowly embedded below, and the
documented properties of the layer are settled against that embedding.
-/

namespace Elephant

/-! ## Whitespace normalization (ElephantBrain._validate_db, lines 265-266)

`re.sub(r'[\s]+', ' ', s).strip()`: every maximal run of whitespace is
replaced by a single space, then leading and trailing whitespace is
removed.  `\s` on a Python 2 `str` matches the six ASCII whitespace
characters. -/

def isPySpace (c : Char) : Bool :=
  c == ' ' || c == '\t' || c == '\n' || c == '\r' || c == '\x0b' || c == '\x0c'

/-- One pass of `re.sub(r'[\s]+', ' ', ·)` over the characters.  The flag
records whether we are currently inside a whitespace run (whose single
replacement space has already been emitted). -/
def collapseAux : Bool → List Char → List Char
  | _, [] => []
  | inWS, c :: cs =>
    if isPySpace c then
      if inWS then collapseAux true cs else ' ' :: collapseAux true cs
    else c :: collapseAux false cs

/-- `str.strip()` from the right: drop trailing whitespace. -/
def stripRight (cs : List Char) : List Char :=
  (cs.reverse.dropWhile isPySpace).reverse

/-- `str.strip()`: drop leading and trailing whitespace. -/
def pyStripList (cs : List Char) : List Char :=
  stripRight (cs.dropWhile isPySpace)

/-- `re.sub(r'[\s]+', ' ', s).strip()` — the normalization applied during
schema validation. -/
def pyNormalize (s : String) : String :=
  String.mk (pyStripList (collapseAux false s.data))

/-- The transformation `_validate_db` applies to the definition text read
back from the live store (line 265): normalization only. -/
def dbSideNorm (s : String) : String :=
  pyNormalize s

/-- The transformation `_validate_db` applies to the canonical catalog
text (line 266): normalization followed by `[:-1]`, i.e. dropping the
final character. -/
def schemaSideNorm (s : String) : String :=
  String.mk (pyNormalize s).data.dropLast

/-! ## The schema catalog (ElephantBrain.schema, lines 51-150)

Each entry is the exact Python triple-quoted string from the source:
a leading newline, the statement indented by 12/16 spaces, and a final
newline plus 12 spaces of indentation before the closing quotes. -/

def metadataSql : String :=
  "\n            CREATE TABLE Metadata(\n                Name text primary key not null,\n                Value text\n            );\n            "

def siteSql : String :=
  "\n            CREATE TABLE Site(\n                id integer primary key autoincrement not null,\n                Name text not null,\n                Location text\n            );\n            "

def roomSql : String :=
  "\n            CREATE TABLE Room(\n                id integer primary key autoincrement not null,\n                Name text not null,\n                RoomGroup text not null,\n                Capacity integer,\n                Type text,\n                Site integer,\n                foreign key(Site) references Site(id)\n            );\n            "

def peopleSql : String :=
  "\n            CREATE TABLE People(\n                id integer primary key autoincrement not null,\n                FirstName text not null,\n                LastName text not null,\n                WorkPhone text,\n                CellPhone text,\n                EMail text,\n                Type text\n            );\n            "

def equipmentSql : String :=
  "\n            CREATE TABLE Equipment(\n                id integer primary key autoincrement not null,\n                Name text not null,\n                ShortName text not null,\n                Description text,\n                Notes text,\n                RoleRequired text\n            );\n            "

def eventSql : String :=
  "\n            CREATE TABLE Event(\n                id integer primary key autoincrement not null,\n                Name text not null,\n                Room integer not null,\n                Start datetime not null,\n                End datetime not null,\n                Speaker integer not null,\n                Notes text,\n                foreign key(Room) references Room(id),\n                foreign key(Speaker) references People(id)\n            );\n            "

def staffAssignSql : String :=
  "\n            CREATE TABLE StaffAssign(\n                id integer primary key autoincrement not null,\n                Event integer not null,\n                Person integer not null,\n                Role text,\n                foreign key(Event) references Event(id),\n                foreign key(Person) references People(id)\n            );\n            "

def equipmentAssignSql : String :=
  "\n            CREATE TABLE EquipmentAssign(\n                id integer primary key autoincrement not null,\n                Event integer not null,\n                Piece integer not null,\n                Quantity integer not null,\n                Notes text,\n                foreign key(Event) references Event(id),\n                foreign key(Piece) references Equipment(id)\n            );\n            "

def equipmentAdjustSql : String :=
  "\n            CREATE TABLE EquipmentAdjust(\n                id integer primary key autoincrement not null,\n                Piece integer not null,\n                Site integer not null,\n                Quantity integer not null,\n                foreign key(Piece) references Equipment(id),\n                foreign key(Site) references Site(id)\n            );\n            "

/-- `ElephantBrain.schema`: the catalog as a (table name, canonical
definition text) association list, in source order. -/
def schema : List (String × String) :=
  [ ("Metadata", metadataSql),
    ("Site", siteSql),
    ("Room", roomSql),
    ("People", peopleSql),
    ("Equipment", equipmentSql),
    ("Event", eventSql),
    ("StaffAssign", staffAssignSql),
    ("EquipmentAssign", equipmentAssignSql),
    ("EquipmentAdjust", equipmentAdjustSql) ]

/-- The catalog's table-name set. -/
def schemaTableNames : List String := schema.map (fun e => e.1)

/-- First-match association-list lookup (Python `dict` read access). -/
def pyLookup {κ υ : Type} [DecidableEq κ] (k : κ) : List (κ × υ) → Option υ
  | [] => none
  | (k', v) :: rest => if k' = k then some v else pyLookup k rest

/-- Modelled engine behaviour (SQLite, documented): for a plain
`CREATE TABLE` statement, `sqlite_master.sql` stores the statement text
from the `CREATE` keyword up to (not including) the terminating
semicolon — leading whitespace and the semicolon are not stored, the
interior text is kept verbatim. -/
def sqliteStoredSql (stmt : String) : String :=
  String.mk ((stmt.data.dropWhile isPySpace).takeWhile (fun c => c ≠ ';'))

/-- `ElephantBrain._make_new_db` (lines 241-258) executes every catalog
definition against a fresh file; the table dictionary subsequently read
back by `_table_dict` therefore holds, for each catalog table, the
engine-stored text of its definition. -/
def makeNewDbTableDict : List (String × String) :=
  schema.map (fun e => (e.1, sqliteStoredSql e.2))

/-- `ElephantBrain._validate_db` (lines 260-274) over the table
dictionary read from the live store: every catalog table must be present
and its stored text, normalized, must equal the canonical text,
normalized and with the last character dropped (`[:-1]`). -/
def validate_db (tableDict : List (String × String)) : Bool :=
  schema.all (fun e =>
    match pyLookup e.1 tableDict with
    | none => false
    | some dbText => schemaSideNorm e.2 == dbSideNorm dbText)

/-! ## Word decomposition

The sequence of maximal non-whitespace runs of a character list.  Two
strings "differ only in whitespace" (run lengths, leading and trailing
whitespace) exactly when their word sequences agree; the normalization
of `_validate_db` is shown below to factor through this decomposition. -/

def wordsAux : List Char → List Char → List (List Char)
  | acc, [] => if acc.isEmpty then [] else [acc.reverse]
  | acc, c :: cs =>
    if isPySpace c then
      if acc.isEmpty then wordsAux [] cs else acc.reverse :: wordsAux [] cs
    else wordsAux (c :: acc) cs

/-- The maximal non-whitespace runs, in order. -/
def wordsOf (cs : List Char) : List (List Char) :=
  wordsAux [] cs

/-- Join words with single spaces. -/
def joinWords : List (List Char) → List Char
  | [] => []
  | [w] => w
  | w :: ws => w ++ ' ' :: joinWords ws

/-! ## Store lifecycle (ElephantBrain.__init__, lines 152-190) -/

inductive BrainEv where
  | connectDb
  | setRowFactory
  | runValidate
  | raiseAddled
  | retSelf
  | closeDb
deriving DecidableEq

inductive BrainError where
  | addledBrain
deriving DecidableEq

/-- `ElephantBrain.__init__` with `new=False` (lines 176-187): connect to
the file, install the row factory, run `_validate_db`; if validation
fails, raise `AddledBrainError`.  The event list records the operations
in source order; the source executes no close on the failure path. -/
def openExistingEvents (tableDict : List (String × String)) : List BrainEv :=
  [BrainEv.connectDb, BrainEv.setRowFactory, BrainEv.runValidate] ++
    (if validate_db tableDict then [BrainEv.retSelf] else [BrainEv.raiseAddled])

/-- What the caller of `openExisting` receives: a usable handle only when
validation passed, the `AddledBrainError` failure otherwise. -/
def openExistingResult (tableDict : List (String × String)) : Except BrainError Unit :=
  if validate_db tableDict then Except.ok () else Except.error BrainError.addledBrain

/-- Modelled from the runtime: when `__init__` raises, CPython reclaims
the partially constructed instance, whose `__del__` (lines 189-190)
closes the connection — after the error has already propagated. -/
def openExistingFullEvents (tableDict : List (String × String)) : List BrainEv :=
  openExistingEvents tableDict ++
    (if validate_db tableDict then [] else [BrainEv.closeDb])

/-! ## Query builder: SELECT (ElephantBrain.get, lines 350-389) -/

inductive PyStrOrList where
  | single (s : String)
  | listOf (l : List String)
deriving DecidableEq

/-- The coercion at the top of `get` (lines 377-382): a bare string
argument is wrapped into a one-element list. -/
def toListArg : PyStrOrList → List String
  | .single s => [s]
  | .listOf l => l

/-- Python truthiness of an optional list: `None` and `[]` are falsy. -/
def optTruthy : Option (List String) → Bool
  | none => false
  | some l => !l.isEmpty

/-- The `qry` string built at lines 384-385: field clause (or `*`) plus
the FROM clause. -/
def selectCore (tables : PyStrOrList) (fields : Option PyStrOrList) : String :=
  "SELECT " ++
    (if optTruthy (fields.map toListArg) then
      String.intercalate ", " ((fields.map toListArg).getD [])
    else "*") ++
    " FROM " ++ String.intercalate ", " (toListArg tables)

/-- `ElephantBrain.get` (lines 376-389): the SELECT text it composes —
the core statement, with the WHERE clause appended when `where` is
truthy (lines 386-387). -/
def getQuery (tables : PyStrOrList) (fields whereC : Option PyStrOrList) : String :=
  if optTruthy (whereC.map toListArg) then
    selectCore tables fields ++ " WHERE " ++
      String.intercalate " AND " ((whereC.map toListArg).getD [])
  else selectCore tables fields

/-! ## Query builder: INSERT (ElephantBrain.add, lines 276-295) -/

/-- The scalar Python values that flow through `add`/`add_csv`. -/
inductive PyScalar where
  | pstr (s : String)
  | pint (n : Int)
  | pnone
deriving DecidableEq

/-- Modelled from the runtime: the escape Python 2 `repr` applies to one
character of a printable-ASCII `str`, given the chosen delimiter. -/
def pyEscape (q : Char) (c : Char) : List Char :=
  if c = '\\' then ['\\', '\\']
  else if c = q then ['\\', q]
  else if c = '\n' then ['\\', 'n']
  else if c = '\r' then ['\\', 'r']
  else if c = '\t' then ['\\', 't']
  else [c]

/-- Modelled from the runtime: the delimiter Python 2 `repr` chooses —
a single quote, unless the string contains a single quote and no double
quote, in which case a double quote. -/
def pyReprQuote (s : String) : Char :=
  if s.data.contains '\'' && !(s.data.contains '"') then '"' else '\''

/-- Modelled from the runtime: Python 2 `repr` of a printable-ASCII
`str`. -/
def pyReprStr (s : String) : String :=
  String.mk (pyReprQuote s :: s.data.flatMap (pyEscape (pyReprQuote s)) ++ [pyReprQuote s])

/-- Modelled from the runtime: Python 2 `repr` of the scalars. -/
def pyRepr : PyScalar → String
  | .pstr s => pyReprStr s
  | .pint n => toString n
  | .pnone => "None"

/-- `ElephantBrain.add` (lines 276-295): the INSERT text it composes,
with `repr` applied to each value. -/
def addQuery (table : String) (fields : List String) (values : List PyScalar) : String :=
  "INSERT INTO " ++ table ++ "(" ++ String.intercalate ", " fields ++
    ") VALUES (" ++ String.intercalate ", " (values.map pyRepr) ++ ")"

/-- Modelled from the spec: "the engine's literal-quoting convention" —
SQLite string literals are single-quoted with embedded single quotes
doubled. -/
def sqliteQuoteStr (s : String) : String :=
  String.mk ('\'' ::
    s.data.flatMap (fun c => if c = '\'' then ['\'', '\''] else [c]) ++ ['\''])

/-- Modelled from the spec: SQLite literal serialization of the scalars. -/
def sqliteLiteral : PyScalar → String
  | .pstr s => sqliteQuoteStr s
  | .pint n => toString n
  | .pnone => "NULL"

/-- The INSERT text the claim describes: values serialized via the
engine's literal-quoting convention. -/
def addQuerySpecQuoted (table : String) (fields : List String)
    (values : List PyScalar) : String :=
  "INSERT INTO " ++ table ++ "(" ++ String.intercalate ", " fields ++
    ") VALUES (" ++ String.intercalate ", " (values.map sqliteLiteral) ++ ")"

/-- Characters on which `repr` and the engine's literal quoting agree:
no single quote, no backslash, no escaped control character. -/
def plainChar (c : Char) : Bool :=
  !(c == '\'' || c == '\\' || c == '\n' || c == '\r' || c == '\t')

/-- Scalars on which `repr` and the engine's literal quoting agree. -/
def plainScalar : PyScalar → Bool
  | .pstr s => s.data.all plainChar
  | .pint _ => true
  | .pnone => false

/-! ## Python dict semantics (dict_factory, lines 25-36) -/

/-- Python `dict` assignment `d[k] = v`: overwrite in place when the key
exists, append otherwise.  Iteration order is modelled as insertion
order. -/
def pyDictInsert {κ υ : Type} [DecidableEq κ] (d : List (κ × υ)) (k : κ) (v : υ) :
    List (κ × υ) :=
  if d.any (fun p => decide (p.1 = k)) then
    d.map (fun p => if p.1 = k then (k, v) else p)
  else d ++ [(k, v)]

/-- `dict(pairs)`: successive assignments starting from the empty dict. -/
def pyDictOf {κ υ : Type} [DecidableEq κ] (pairs : List (κ × υ)) : List (κ × υ) :=
  pairs.foldl (fun d p => pyDictInsert d p.1 p.2) []

/-- `dict_factory` (lines 25-36): pair each column label of
`cur.description` with the row value at the same index, then build the
dict. -/
def dict_factory {α : Type} (desc : List String) (row : List α) : List (String × α) :=
  pyDictOf (desc.zip row)

/-- The value of the last column bearing a given label: the first match
when scanning the pairs from the right. -/
def lastValueFor {κ υ : Type} [DecidableEq κ] (k : κ) (ps : List (κ × υ)) : Option υ :=
  pyLookup k ps.reverse

/-! ## Bulk importer (ElephantBrain.add_csv, lines 297-344) -/

/-- The Python objects that may be passed as `field_map`. -/
inductive PyObj where
  | scalar (v : PyScalar)
  | pdict (items : List (PyScalar × PyScalar))
deriving DecidableEq

def scalarTruthy : PyScalar → Bool
  | .pstr s => !s.isEmpty
  | .pint n => decide (n ≠ 0)
  | .pnone => false

def pyTruthy : PyObj → Bool
  | .scalar v => scalarTruthy v
  | .pdict items => !items.isEmpty

def isDict : PyObj → Bool
  | .pdict _ => true
  | .scalar _ => false

def dictItems : PyObj → List (PyScalar × PyScalar)
  | .pdict items => items
  | .scalar _ => []

def dictValues (o : PyObj) : List PyScalar :=
  (dictItems o).map (fun kv => kv.2)

def isStr : PyScalar → Bool
  | .pstr _ => true
  | _ => false

/-- `row.get(k)`: value at the first matching key, `None` when absent. -/
def pyGet (row : List (PyScalar × PyScalar)) (k : PyScalar) : PyScalar :=
  match pyLookup k row with
  | some v => v
  | none => PyScalar.pnone

/-- The per-row field-map application in `add_csv` (lines 332-340): with
a truthy field map, build `ins_row` from the map's items — a truthy
(non-empty string) source name reads that source column, a falsy one
reads the column named like the destination; otherwise the row passes
through unchanged. -/
def csvInsRow (field_map : PyObj) (row : List (PyScalar × PyScalar)) :
    List (PyScalar × PyScalar) :=
  if pyTruthy field_map then
    pyDictOf ((dictItems field_map).map (fun kv =>
      (kv.1, if scalarTruthy kv.2 then pyGet row kv.2 else pyGet row kv.1)))
  else row

inductive CsvError where
  | typeError
  | valueError
deriving DecidableEq

/-- One call forwarded to `add`: the table plus the positionally paired
field and value lists. -/
structure InsertCall where
  table : String
  fields : List PyScalar
  values : List PyScalar
deriving DecidableEq

/-- `ElephantBrain.add_csv` (lines 297-344).  `os.path.isfile` of the
source path is abstracted to `fileExists`; the parsed `DictReader` rows
are the input; the calls forwarded to `add` are collected in order.
The source checks the field map's shape, then the file, and only then
reads rows — it never checks the table name against the catalog. -/
def add_csv (table : String) (fileExists : Bool) (field_map : PyObj)
    (rows : List (List (PyScalar × PyScalar))) : Except CsvError (List InsertCall) :=
  if pyTruthy field_map && (!isDict field_map || !(dictValues field_map).all isStr) then
    Except.error CsvError.typeError
  else if !fileExists then
    Except.error CsvError.valueError
  else
    Except.ok (rows.map (fun row =>
      let r := csvInsRow field_map row
      ⟨table, r.map (fun p => p.1), r.map (fun p => p.2)⟩))

/-- Modelled from the spec: "a flat mapping of strings to strings". -/
def isFlatStringMap : PyObj → Bool
  | .pdict items => items.all (fun kv => isStr kv.1 && isStr kv.2)
  | .scalar _ => false

/-! ## Lemmas: the normalization factors through the word decomposition -/

theorem isPySpace_space : isPySpace ' ' = true := rfl

theorem dropWhile_space_cons (x : List Char) :
    List.dropWhile isPySpace (' ' :: x) = List.dropWhile isPySpace x := rfl

theorem dropWhile_of_forall_false {α : Type} {p : α → Bool} {l : List α}
    (h : ∀ c ∈ l, p c = false) : l.dropWhile p = l := by
  cases l with
  | nil => rfl
  | cons a l =>
    have ha := h a (List.mem_cons_self a l)
    simp [List.dropWhile_cons, ha]

theorem dropWhile_head_false {α : Type} {p : α → Bool} {l : List α} {c : α} {cs : List α}
    (h : l.dropWhile p = c :: cs) : p c = false := by
  induction l with
  | nil => simp [List.dropWhile] at h
  | cons a l ih =>
    by_cases ha : p a
    · rw [List.dropWhile_cons, if_pos ha] at h
      exact ih h
    · rw [List.dropWhile_cons, if_neg ha] at h
      obtain ⟨rfl, rfl⟩ := List.cons.injEq .. ▸ h
      simpa using ha

theorem collapseAux_cons_true_ws {c : Char} (h : isPySpace c = true) (cs : List Char) :
    collapseAux true (c :: cs) = collapseAux true cs := by
  simp [collapseAux, h]

theorem collapseAux_cons_false_ws {c : Char} (h : isPySpace c = true) (cs : List Char) :
    collapseAux false (c :: cs) = ' ' :: collapseAux true cs := by
  simp [collapseAux, h]

theorem collapseAux_cons_nonws {c : Char} (h : isPySpace c = false) (b : Bool)
    (cs : List Char) : collapseAux b (c :: cs) = c :: collapseAux false cs := by
  simp [collapseAux, h]

theorem dropWhile_collapseAux (cs : List Char) :
    (collapseAux true cs).dropWhile isPySpace = (collapseAux false cs).dropWhile isPySpace := by
  cases cs with
  | nil => rfl
  | cons c cs =>
    cases hc : isPySpace c with
    | true =>
      rw [collapseAux_cons_true_ws hc, collapseAux_cons_false_ws hc, dropWhile_space_cons]
    | false =>
      rw [collapseAux_cons_nonws hc true, collapseAux_cons_nonws hc false]

theorem dropWhile_collapseAux_true (cs : List Char) :
    (collapseAux true cs).dropWhile isPySpace = collapseAux true cs := by
  induction cs with
  | nil => rfl
  | cons c cs ih =>
    cases hc : isPySpace c with
    | true => rw [collapseAux_cons_true_ws hc]; exact ih
    | false =>
      rw [collapseAux_cons_nonws hc, List.dropWhile_cons]
      simp [hc]

theorem collapseAux_word (w : List Char) :
    ∀ (c : Char) (b : Bool) (rest : List Char), isPySpace c = false →
      (∀ x ∈ w, isPySpace x = false) →
      collapseAux b ((c :: w) ++ rest) = (c :: w) ++ collapseAux false rest := by
  induction w with
  | nil =>
    intro c b rest hc _
    rw [List.cons_append, List.nil_append, collapseAux_cons_nonws hc]
    rfl
  | cons x w' ih =>
    intro c b rest hc hw
    have hx : isPySpace x = false := hw x (List.mem_cons_self x w')
    rw [List.cons_append, collapseAux_cons_nonws hc]
    rw [show x :: w' ++ rest = (x :: w') ++ rest from rfl]
    rw [ih x false rest hx (fun y hy => hw y (List.mem_cons_of_mem x hy))]
    rfl

theorem stripRight_append (a b : List Char) :
    stripRight (a ++ b) = if stripRight b = [] then stripRight a else a ++ stripRight b := by
  by_cases h : b.reverse.dropWhile isPySpace = []
  · have hb : stripRight b = [] := by simp [stripRight, h]
    simp [stripRight, List.reverse_append, List.dropWhile_append, h, hb]
  · have hb : ¬stripRight b = [] := by simp [stripRight, h]
    simp [stripRight, List.reverse_append, List.dropWhile_append, h, hb]

theorem stripRight_of_forall_nonws {cs : List Char} (h : ∀ c ∈ cs, isPySpace c = false) :
    stripRight cs = cs := by
  unfold stripRight
  rw [dropWhile_of_forall_false (fun c hc => h c (List.mem_reverse.mp hc))]
  exact List.reverse_reverse cs

theorem stripRight_eq_nil_iff {cs : List Char} :
    stripRight cs = [] ↔ ∀ c ∈ cs, isPySpace c = true := by
  unfold stripRight
  rw [List.reverse_eq_nil_iff, List.dropWhile_eq_nil_iff]
  constructor
  · intro h c hc
    exact h c (List.mem_reverse.mpr hc)
  · intro h c hc
    exact h c (List.mem_reverse.mp hc)

theorem wordsAux_nil_acc_ws {c : Char} (h : isPySpace c = true) (cs : List Char) :
    wordsAux [] (c :: cs) = wordsAux [] cs := by
  simp [wordsAux, h]

theorem wordsAux_cons_nonws {c : Char} (h : isPySpace c = false) (acc cs : List Char) :
    wordsAux acc (c :: cs) = wordsAux (c :: acc) cs := by
  simp [wordsAux, h]

theorem wordsAux_cons_ws_acc {c : Char} {acc : List Char} (h : isPySpace c = true)
    (hacc : acc ≠ []) (cs : List Char) :
    wordsAux acc (c :: cs) = acc.reverse :: wordsAux [] cs := by
  simp [wordsAux, h, List.isEmpty_iff, hacc]

theorem wordsAux_nil_arg {acc : List Char} (hacc : acc ≠ []) :
    wordsAux acc [] = [acc.reverse] := by
  simp [wordsAux, List.isEmpty_iff, hacc]

theorem wordsAux_word (w : List Char) :
    ∀ (acc cs : List Char), (∀ x ∈ w, isPySpace x = false) →
      wordsAux acc (w ++ cs) = wordsAux (w.reverse ++ acc) cs := by
  induction w with
  | nil => intro acc cs _; simp
  | cons x w' ih =>
    intro acc cs hw
    have hx : isPySpace x = false := hw x (List.mem_cons_self x w')
    rw [List.cons_append, wordsAux_cons_nonws hx,
      ih (x :: acc) cs (fun y hy => hw y (List.mem_cons_of_mem x hy))]
    congr 1
    simp

theorem nil_not_mem_wordsAux : ∀ (cs acc : List Char),
    ([] : List Char) ∈ wordsAux acc cs → False := by
  intro cs
  induction cs with
  | nil =>
    intro acc h
    by_cases hacc : acc = []
    · subst hacc; simp [wordsAux] at h
    · rw [wordsAux_nil_arg hacc] at h
      simp at h
      exact hacc h
  | cons c cs ih =>
    intro acc h
    cases hc : isPySpace c with
    | false =>
      rw [wordsAux_cons_nonws hc] at h
      exact ih _ h
    | true =>
      by_cases hacc : acc = []
      · subst hacc; rw [wordsAux_nil_acc_ws hc] at h; exact ih _ h
      · rw [wordsAux_cons_ws_acc hc hacc] at h
        rcases List.mem_cons.mp h with h1 | h2
        · exact hacc (List.reverse_eq_nil_iff.mp h1.symm)
        · exact ih _ h2

theorem wordsOf_cons_nonws {c : Char} {cs : List Char} (h : isPySpace c = false) :
    wordsOf (c :: cs) =
      (c :: cs.takeWhile (fun x => !isPySpace x)) ::
        wordsOf (cs.dropWhile (fun x => !isPySpace x)) := by
  have htw : ∀ x ∈ cs.takeWhile (fun x => !isPySpace x), isPySpace x = false := by
    intro x hx
    simpa using List.mem_takeWhile_imp hx
  unfold wordsOf
  rw [wordsAux_cons_nonws h]
  conv_lhs =>
    rw [show cs = cs.takeWhile (fun x => !isPySpace x) ++ cs.dropWhile (fun x => !isPySpace x)
      from (List.takeWhile_append_dropWhile ..).symm]
  rw [wordsAux_word _ _ _ htw]
  cases hdw : cs.dropWhile (fun x => !isPySpace x) with
  | nil =>
    rw [wordsAux_nil_arg (by simp)]
    simp [wordsAux, List.reverse_append]
  | cons d dw' =>
    have hd : isPySpace d = true := by
      simpa using dropWhile_head_false hdw
    rw [wordsAux_cons_ws_acc hd (by simp), wordsAux_nil_acc_ws hd]
    congr 1
    simp

theorem pyStrip_collapse_eq_joinWords (cs : List Char) :
    pyStripList (collapseAux false cs) = joinWords (wordsOf cs) := by
  cases cs with
  | nil => rfl
  | cons c cs' =>
    cases hc : isPySpace c with
    | true =>
      unfold wordsOf
      rw [wordsAux_nil_acc_ws hc, collapseAux_cons_false_ws hc]
      unfold pyStripList
      rw [dropWhile_space_cons, dropWhile_collapseAux]
      exact pyStrip_collapse_eq_joinWords cs'
    | false =>
      have htw : ∀ x ∈ cs'.takeWhile (fun x => !isPySpace x), isPySpace x = false := by
        intro x hx
        simpa using List.mem_takeWhile_imp hx
      have hcol : collapseAux false (c :: cs') =
          (c :: cs'.takeWhile (fun x => !isPySpace x)) ++
            collapseAux false (cs'.dropWhile (fun x => !isPySpace x)) := by
        conv_lhs =>
          rw [show c :: cs' = (c :: cs'.takeWhile (fun x => !isPySpace x)) ++
              cs'.dropWhile (fun x => !isPySpace x) from by
            rw [List.cons_append, List.takeWhile_append_dropWhile]]
        exact collapseAux_word _ c false _ hc htw
      rw [wordsOf_cons_nonws hc, hcol]
      unfold pyStripList
      have hkeep : ((c :: cs'.takeWhile (fun x => !isPySpace x)) ++
          collapseAux false (cs'.dropWhile (fun x => !isPySpace x))).dropWhile isPySpace =
          (c :: cs'.takeWhile (fun x => !isPySpace x)) ++
            collapseAux false (cs'.dropWhile (fun x => !isPySpace x)) := by
        rw [List.cons_append, List.dropWhile_cons]
        simp [hc]
      rw [hkeep]
      cases hdw : cs'.dropWhile (fun x => !isPySpace x) with
      | nil =>
        rw [show collapseAux false ([] : List Char) = [] from rfl, List.append_nil,
          stripRight_of_forall_nonws (by
            intro x hx
            rcases List.mem_cons.mp hx with h1 | h2
            · exact h1 ▸ hc
            · exact htw x h2)]
        simp [wordsOf, wordsAux, joinWords]
      | cons d dw'' =>
        have hd : isPySpace d = true := by
          simpa using dropWhile_head_false hdw
        rw [collapseAux_cons_false_ws hd]
        have hIH : stripRight (collapseAux true dw'') = joinWords (wordsOf (d :: dw'')) := by
          have h0 := pyStrip_collapse_eq_joinWords (cs'.dropWhile (fun x => !isPySpace x))
          rw [hdw] at h0
          unfold pyStripList at h0
          rw [collapseAux_cons_false_ws hd, dropWhile_space_cons,
            dropWhile_collapseAux_true] at h0
          exact h0
        by_cases hz : stripRight (collapseAux true dw'') = []
        · have hz0 : collapseAux true dw'' = [] := by
            have hall := stripRight_eq_nil_iff.mp hz
            have hdw2 : (collapseAux true dw'').dropWhile isPySpace = [] :=
              List.dropWhile_eq_nil_iff.mpr (fun x hx => hall x hx)
            rw [dropWhile_collapseAux_true] at hdw2
            exact hdw2
          have hwnil : wordsOf (d :: dw'') = [] := by
            cases hwl : wordsOf (d :: dw'') with
            | nil => rfl
            | cons w ws =>
              exfalso
              have hjoin : joinWords (w :: ws) = [] := by rw [← hwl, ← hIH, hz]
              have hwne : w ≠ [] := by
                intro h0
                apply nil_not_mem_wordsAux (d :: dw'') []
                show ([] : List Char) ∈ wordsAux [] (d :: dw'')
                have hwl' : wordsAux [] (d :: dw'') = w :: ws := hwl
                rw [hwl', h0]
                exact List.mem_cons_self _ _
              cases ws with
              | nil => simp [joinWords] at hjoin; exact hwne hjoin
              | cons w2 ws2 => simp [joinWords] at hjoin
          rw [hz0, hwnil, stripRight_append]
          have hsp : stripRight [' '] = [] := rfl
          rw [if_pos hsp]
          rw [stripRight_of_forall_nonws (by
            intro x hx
            rcases List.mem_cons.mp hx with h1 | h2
            · exact h1 ▸ hc
            · exact htw x h2)]
          simp [joinWords]
        · have h1 : stripRight ((' ' : Char) :: collapseAux true dw'') =
              ' ' :: stripRight (collapseAux true dw'') := by
            have h2 := stripRight_append [' '] (collapseAux true dw'')
            rw [if_neg hz] at h2
            simpa using h2
          rw [stripRight_append, h1, if_neg (List.cons_ne_nil _ _), hIH]
          have hwne : wordsOf (d :: dw'') ≠ [] := by
            intro hnil
            rw [hnil] at hIH
            simp [joinWords] at hIH
            exact hz hIH
          cases hwl : wordsOf (d :: dw'') with
          | nil => exact absurd hwl hwne
          | cons w ws => simp [joinWords]
termination_by cs.length
decreasing_by
  all_goals simp only [List.length_cons]
  all_goals first
    | exact Nat.lt_succ_self _
    | exact Nat.lt_succ_of_le ((List.dropWhile_sublist _).length_le)

/-! ## Lemmas: Python dict semantics -/

theorem pyLookup_nil {κ υ : Type} [DecidableEq κ] (k : κ) :
    pyLookup k ([] : List (κ × υ)) = none := rfl

theorem pyLookup_cons {κ υ : Type} [DecidableEq κ] (k k0 : κ) (v0 : υ) (rest : List (κ × υ)) :
    pyLookup k ((k0, v0) :: rest) = if k0 = k then some v0 else pyLookup k rest := rfl

theorem pyLookup_map_replace {κ υ : Type} [DecidableEq κ] (d : List (κ × υ)) (k k' : κ)
    (v : υ) (hne : k' ≠ k) :
    pyLookup k' (d.map (fun p => if p.1 = k then (k, v) else p)) = pyLookup k' d := by
  induction d with
  | nil => rfl
  | cons a d ih =>
    obtain ⟨k0, v0⟩ := a
    by_cases h0 : k0 = k
    · subst h0
      simp only [List.map_cons, if_true]
      rw [pyLookup_cons, pyLookup_cons]
      rw [if_neg (fun h => hne h.symm), if_neg (fun h : k0 = k' => hne h.symm)]
      exact ih
    · simp only [List.map_cons]
      rw [show (if (k0, v0).1 = k then (k, v) else (k0, v0)) = (k0, v0) from if_neg h0]
      rw [pyLookup_cons, pyLookup_cons]
      by_cases h1 : k0 = k'
      · simp [h1]
      · simp [h1, ih]

theorem pyLookup_map_replace_found {κ υ : Type} [DecidableEq κ] (d : List (κ × υ)) (k : κ)
    (v : υ) (hmem : d.any (fun p => decide (p.1 = k)) = true) :
    pyLookup k (d.map (fun p => if p.1 = k then (k, v) else p)) = some v := by
  induction d with
  | nil => simp at hmem
  | cons a d ih =>
    obtain ⟨k0, v0⟩ := a
    by_cases h0 : k0 = k
    · subst h0
      simp only [List.map_cons, if_true]
      rw [pyLookup_cons, if_pos rfl]
    · simp only [List.map_cons]
      rw [show (if (k0, v0).1 = k then (k, v) else (k0, v0)) = (k0, v0) from if_neg h0]
      rw [pyLookup_cons, if_neg h0]
      apply ih
      simpa [h0] using hmem

theorem pyLookup_append_not_found {κ υ : Type} [DecidableEq κ] (d : List (κ × υ))
    (k k' : κ) (v : υ) (hmem : d.any (fun p => decide (p.1 = k)) = false) :
    pyLookup k' (d ++ [(k, v)]) = if k = k' then some v else pyLookup k' d := by
  induction d with
  | nil => simp [pyLookup_cons, pyLookup_nil]
  | cons a d ih =>
    obtain ⟨k0, v0⟩ := a
    have h0 : ¬(k0 = k) := by
      intro h
      rw [List.any_cons] at hmem
      simp [h] at hmem
    have h1 : d.any (fun p => decide (p.1 = k)) = false := by
      rw [List.any_cons] at hmem
      exact (Bool.or_eq_false_iff.mp hmem).2
    rw [List.cons_append, pyLookup_cons, pyLookup_cons]
    by_cases hk0 : k0 = k'
    · have hkk' : ¬(k = k') := fun h => h0 (hk0.trans h.symm)
      simp [hk0, hkk']
    · simp [hk0, ih h1]

theorem pyLookup_pyDictInsert {κ υ : Type} [DecidableEq κ] (d : List (κ × υ)) (k k' : κ)
    (v : υ) :
    pyLookup k' (pyDictInsert d k v) = if k = k' then some v else pyLookup k' d := by
  unfold pyDictInsert
  by_cases hmem : d.any (fun p => decide (p.1 = k)) = true
  · rw [if_pos hmem]
    by_cases hkk : k = k'
    · subst hkk
      rw [if_pos rfl]
      exact pyLookup_map_replace_found d k v hmem
    · rw [if_neg hkk]
      exact pyLookup_map_replace d k k' v (fun h => hkk h.symm)
  · rw [if_neg hmem]
    refine pyLookup_append_not_found d k k' v ?_
    revert hmem
    cases d.any (fun p => decide (p.1 = k)) <;> simp

theorem pyDictOf_append_single {κ υ : Type} [DecidableEq κ] (ps : List (κ × υ)) (q : κ × υ) :
    pyDictOf (ps ++ [q]) = pyDictInsert (pyDictOf ps) q.1 q.2 := by
  unfold pyDictOf
  rw [List.foldl_append]
  rfl

theorem lastValueFor_append_single {κ υ : Type} [DecidableEq κ] (ps : List (κ × υ))
    (k k0 : κ) (v0 : υ) :
    lastValueFor k (ps ++ [(k0, v0)]) = if k0 = k then some v0 else lastValueFor k ps := by
  unfold lastValueFor
  rw [List.reverse_append]
  simp only [List.reverse_cons, List.reverse_nil, List.nil_append, List.singleton_append]
  rw [pyLookup_cons]

theorem pyLookup_pyDictOf {κ υ : Type} [DecidableEq κ] (ps : List (κ × υ)) (k : κ) :
    pyLookup k (pyDictOf ps) = lastValueFor k ps := by
  induction ps using List.reverseRecOn with
  | nil => rfl
  | append_singleton ps q ih =>
    obtain ⟨k0, v0⟩ := q
    rw [pyDictOf_append_single, pyLookup_pyDictInsert, lastValueFor_append_single, ih]

theorem pyLookup_isSome_iff {κ υ : Type} [DecidableEq κ] (k : κ) (l : List (κ × υ)) :
    (pyLookup k l).isSome = true ↔ k ∈ l.map Prod.fst := by
  induction l with
  | nil => simp [pyLookup_nil]
  | cons a l ih =>
    obtain ⟨k0, v0⟩ := a
    rw [pyLookup_cons]
    by_cases h : k0 = k
    · simp [h]
    · simp only [List.map_cons]
      rw [if_neg h, List.mem_cons]
      constructor
      · intro hs
        exact Or.inr (ih.mp hs)
      · rintro (h1 | h2)
        · exact absurd h1.symm h
        · exact ih.mpr h2

theorem pyDictOf_nodup_keys {κ υ : Type} [DecidableEq κ] (l : List (κ × υ))
    (h : (l.map Prod.fst).Nodup) : pyDictOf l = l := by
  induction l using List.reverseRecOn with
  | nil => rfl
  | append_singleton l q ih =>
    obtain ⟨k0, v0⟩ := q
    rw [pyDictOf_append_single]
    rw [List.map_append] at h
    have hk0 : k0 ∉ l.map Prod.fst := by
      intro hmem
      exact (List.disjoint_of_nodup_append h) hmem (by simp)
    rw [ih (List.Nodup.of_append_left h)]
    unfold pyDictInsert
    rw [if_neg ?_]
    intro hany
    obtain ⟨p, hp, hpk⟩ := List.any_eq_true.mp hany
    exact hk0 (List.mem_map.mpr ⟨p, hp, of_decide_eq_true hpk⟩)

theorem optTruthy_some_ne {l : List String} (h : l ≠ []) : optTruthy (some l) = true := by
  simp [optTruthy, List.isEmpty_iff, h]

theorem optTruthy_none : optTruthy none = false := rfl

/-! ## Lemmas: repr versus the engine's literal quoting -/

theorem flatMap_id_of {α : Type} (f : α → List α) (l : List α)
    (h : ∀ c ∈ l, f c = [c]) : l.flatMap f = l := by
  induction l with
  | nil => rfl
  | cons a l ih =>
    rw [List.flatMap_cons, h a (List.mem_cons_self a l),
      ih (fun c hc => h c (List.mem_cons_of_mem a hc))]
    rfl

theorem pyReprStr_plain {s : String} (h : s.data.all plainChar = true) :
    pyReprStr s = sqliteQuoteStr s := by
  have hq : ('\'' : Char) ∉ s.data := by
    intro hmem
    have hp := List.all_eq_true.mp h _ hmem
    simp [plainChar] at hp
  have hcont : s.data.contains '\'' = false := by simp [hq]
  have hquote : pyReprQuote s = '\'' := by
    unfold pyReprQuote
    rw [hcont]
    rfl
  have hesc : ∀ c ∈ s.data, pyEscape '\'' c = [c] := by
    intro c hc
    have hp := List.all_eq_true.mp h _ hc
    unfold plainChar at hp
    simp at hp
    obtain ⟨⟨⟨⟨h1, h2⟩, h3⟩, h4⟩, h5⟩ := hp
    unfold pyEscape
    rw [if_neg h2, if_neg h1, if_neg h3, if_neg h4, if_neg h5]
  have hsq : ∀ c ∈ s.data, (if c = '\'' then ['\'', '\''] else [c]) = [c] := by
    intro c hc
    have hp := List.all_eq_true.mp h _ hc
    unfold plainChar at hp
    simp at hp
    exact if_neg hp.1.1.1.1
  unfold pyReprStr sqliteQuoteStr
  rw [hquote, flatMap_id_of _ _ hesc, flatMap_id_of _ _ hsq]

theorem pyRepr_plain {v : PyScalar} (h : plainScalar v = true) : pyRepr v = sqliteLiteral v := by
  cases v with
  | pstr s => exact pyReprStr_plain (by simpa [plainScalar] using h)
  | pint n => rfl
  | pnone => simp [plainScalar] at h

theorem addQuery_plain (table : String) (fields : List String) (values : List PyScalar)
    (h : values.all plainScalar = true) :
    addQuery table fields values = addQuerySpecQuoted table fields values := by
  unfold addQuery addQuerySpecQuoted
  rw [List.map_congr_left (fun v hv => pyRepr_plain (List.all_eq_true.mp h v hv))]

/-! ## The claims -/

set_option maxRecDepth 40000 in
/-- C1: creating a fresh store instantiates all nine catalog tables and
committing them; an immediate `openExisting` on the same path then finds
every catalog table with normalized definition text equal to the
normalized canonical text, so validation succeeds and the open returns a
usable store rather than the invalid-store failure. -/
theorem c1_roundtrip_validation :
    validate_db makeNewDbTableDict = true ∧
      openExistingResult makeNewDbTableDict = Except.ok () := by
  have h : validate_db makeNewDbTableDict = true := by decide
  exact ⟨h, by rw [openExistingResult, if_pos h]⟩

/-- C2 counterexample: on a store that fails validation (here: an empty
file with no tables), `openExisting` signals the invalid-store failure
without ever executing a close — no close event precedes the raise,
contradicting the claim that the connection is closed before the failure
is signaled. -/
theorem c2_counterexample_no_close_before_raise :
    validate_db [] = false ∧
      BrainEv.raiseAddled ∈ openExistingEvents [] ∧
      BrainEv.closeDb ∉ openExistingEvents [] := by
  decide

/-- C2 amended: whenever validation fails, the caller receives the
distinguished invalid-store failure and no usable handle; the source
executes no close before raising — the connection is closed only
afterwards, by the destructor of the reclaimed instance. -/
theorem c2_invalid_store_behavior (tableDict : List (String × String))
    (h : validate_db tableDict = false) :
    openExistingResult tableDict = Except.error BrainError.addledBrain ∧
      BrainEv.closeDb ∉ openExistingEvents tableDict ∧
      openExistingFullEvents tableDict =
        openExistingEvents tableDict ++ [BrainEv.closeDb] := by
  refine ⟨?_, ?_, ?_⟩
  · rw [openExistingResult, if_neg (by simp [h])]
  · rw [openExistingEvents, if_neg (by simp [h])]
    decide
  · rw [openExistingFullEvents, if_neg (by simp [h])]

theorem c2_invalid_store_behavior_witness :
    validate_db [] = false ∧
      openExistingResult [] = Except.error BrainError.addledBrain :=
  ⟨by decide, (c2_invalid_store_behavior [] (by decide)).1⟩

/-- C3: for non-empty table lists, `get` composes exactly
`SELECT fields-comma-joined` (or `SELECT *` when fields are omitted),
then ` FROM tables-comma-joined`, and appends the WHERE clause if and
only if where clauses are given, conjoining multiple clauses with AND
in the given order. -/
theorem c3_select_composition (ts fs ws : List String)
    (_hts : ts ≠ []) (hfs : fs ≠ []) (hws : ws ≠ []) :
    getQuery (PyStrOrList.listOf ts) (some (PyStrOrList.listOf fs))
        (some (PyStrOrList.listOf ws)) =
      "SELECT " ++ String.intercalate ", " fs ++ " FROM " ++ String.intercalate ", " ts ++
        " WHERE " ++ String.intercalate " AND " ws ∧
    getQuery (PyStrOrList.listOf ts) none (some (PyStrOrList.listOf ws)) =
      "SELECT * FROM " ++ String.intercalate ", " ts ++
        " WHERE " ++ String.intercalate " AND " ws ∧
    getQuery (PyStrOrList.listOf ts) (some (PyStrOrList.listOf fs)) none =
      "SELECT " ++ String.intercalate ", " fs ++ " FROM " ++ String.intercalate ", " ts ∧
    getQuery (PyStrOrList.listOf ts) none none =
      "SELECT * FROM " ++ String.intercalate ", " ts := by
  have hf := optTruthy_some_ne hfs
  have hw := optTruthy_some_ne hws
  refine ⟨?_, ?_, ?_, ?_⟩
  · unfold getQuery selectCore
    simp only [Option.map_some', Option.map_none', toListArg, Option.getD_some]
    rw [if_pos hw, if_pos hf]
  · unfold getQuery selectCore
    simp only [Option.map_some', Option.map_none', toListArg, Option.getD_some]
    rw [if_pos hw, if_neg (by rw [optTruthy_none]; exact Bool.false_ne_true)]
    rfl
  · unfold getQuery selectCore
    simp only [Option.map_some', Option.map_none', toListArg, Option.getD_some]
    rw [if_neg (by rw [optTruthy_none]; exact Bool.false_ne_true), if_pos hf]
  · unfold getQuery selectCore
    simp only [Option.map_none', toListArg]
    rw [if_neg (by rw [optTruthy_none]; exact Bool.false_ne_true),
      if_neg (by rw [optTruthy_none]; exact Bool.false_ne_true)]
    rfl

theorem c3_select_composition_witness :
    getQuery (PyStrOrList.listOf ["Event", "Room"])
        (some (PyStrOrList.listOf ["Event.Name"]))
        (some (PyStrOrList.listOf ["Room.Site=Site.id", "Event.Room=Room.id"])) =
      "SELECT Event.Name FROM Event, Room WHERE Room.Site=Site.id AND Event.Room=Room.id" := by
  have h := c3_select_composition ["Event", "Room"] ["Event.Name"]
    ["Room.Site=Site.id", "Event.Room=Room.id"] (by simp) (by simp) (by simp)
  rw [h.1]
  rfl

/-- C4 counterexample: `add` serializes values with the host language's
`repr`, not the engine's literal quoting — on a string containing a
single quote the two conventions produce different statement texts. -/
theorem c4_counterexample_repr_not_engine_quoting :
    addQuery "Metadata" ["Name"] [PyScalar.pstr "it's"] =
      "INSERT INTO Metadata(Name) VALUES (\"it's\")" ∧
    addQuerySpecQuoted "Metadata" ["Name"] [PyScalar.pstr "it's"] =
      "INSERT INTO Metadata(Name) VALUES ('it''s')" ∧
    addQuery "Metadata" ["Name"] [PyScalar.pstr "it's"] ≠
      addQuerySpecQuoted "Metadata" ["Name"] [PyScalar.pstr "it's"] := by
  refine ⟨by decide, by decide, by decide⟩

/-- C4 amended: `add` pairs fields and values positionally and embeds
each value serialized via Python `repr`; on integers and quote-free,
escape-free strings this coincides with the engine's literal-quoting
convention, but not in general. -/
theorem c4_insert_composition_repr (table : String) (fields : List String)
    (values : List PyScalar) :
    addQuery table fields values =
      "INSERT INTO " ++ table ++ "(" ++ String.intercalate ", " fields ++
        ") VALUES (" ++ String.intercalate ", " (values.map pyRepr) ++ ")" ∧
    (values.all plainScalar = true →
      addQuery table fields values = addQuerySpecQuoted table fields values) :=
  ⟨rfl, fun h => addQuery_plain table fields values h⟩

theorem c4_insert_composition_repr_witness :
    ([PyScalar.pint 1, PyScalar.pstr "Thingy"].all plainScalar = true) ∧
    addQuery "Equipment" ["id", "Name"] [PyScalar.pint 1, PyScalar.pstr "Thingy"] =
      addQuerySpecQuoted "Equipment" ["id", "Name"] [PyScalar.pint 1, PyScalar.pstr "Thingy"] :=
  ⟨by decide,
    (c4_insert_composition_repr "Equipment" ["id", "Name"]
      [PyScalar.pint 1, PyScalar.pstr "Thingy"]).2 (by decide)⟩

/-- C5 counterexample: a present-but-empty field map is falsy, so the
row passes through unfiltered — the inserted columns are the row's own,
not the (empty) key set of the field map, refuting the claim for the
empty map. -/
theorem c5_counterexample_empty_fieldmap :
    add_csv "T" true (PyObj.pdict []) [[(PyScalar.pstr "A", PyScalar.pstr "1")]] =
      Except.ok [⟨"T", [PyScalar.pstr "A"], [PyScalar.pstr "1"]⟩] ∧
    add_csv "T" true (PyObj.pdict []) [[(PyScalar.pstr "A", PyScalar.pstr "1")]] ≠
      Except.ok [⟨"T", [], []⟩] := by
  refine ⟨rfl, fun h => ?_⟩
  rw [show add_csv "T" true (PyObj.pdict []) [[(PyScalar.pstr "A", PyScalar.pstr "1")]] =
      Except.ok [⟨"T", [PyScalar.pstr "A"], [PyScalar.pstr "1"]⟩] from rfl] at h
  simp at h

/-- C5 amended: for every data row, a present NON-EMPTY field map acts
as a projection filter — exactly its keys are inserted, each value read
from the named source column, or from the column named like the
destination when the mapped source is the empty string; an absent (or
empty, hence falsy) field map passes the row's own columns through
verbatim. -/
theorem c5_fieldmap_projection (table : String) (items : List (PyScalar × PyScalar))
    (rows : List (List (PyScalar × PyScalar)))
    (hne : items ≠ []) (hstr : ∀ kv ∈ items, isStr kv.2 = true)
    (hnodup : (items.map Prod.fst).Nodup) :
    add_csv table true (PyObj.pdict items) rows =
      Except.ok (rows.map (fun row =>
        ⟨table, items.map Prod.fst,
          items.map (fun kv =>
            if scalarTruthy kv.2 then pyGet row kv.2 else pyGet row kv.1)⟩)) ∧
    ∀ rows₂, add_csv table true (PyObj.scalar PyScalar.pnone) rows₂ =
      Except.ok (rows₂.map (fun row =>
        ⟨table, row.map Prod.fst, row.map Prod.snd⟩)) := by
  have htruthy : pyTruthy (PyObj.pdict items) = true := by
    simp [pyTruthy, List.isEmpty_iff, hne]
  have hval : (dictValues (PyObj.pdict items)).all isStr = true := by
    rw [List.all_eq_true]
    intro v hv
    obtain ⟨kv, hkv, rfl⟩ := List.mem_map.mp hv
    exact hstr kv hkv
  constructor
  · have hcond : (pyTruthy (PyObj.pdict items) &&
        (!isDict (PyObj.pdict items) || !(dictValues (PyObj.pdict items)).all isStr)) = false := by
      rw [htruthy, hval]
      rfl
    have hrow : ∀ row, csvInsRow (PyObj.pdict items) row =
        items.map (fun kv =>
          (kv.1, if scalarTruthy kv.2 then pyGet row kv.2 else pyGet row kv.1)) := by
      intro row
      unfold csvInsRow
      rw [if_pos htruthy]
      apply pyDictOf_nodup_keys
      rw [List.map_map]
      exact hnodup
    unfold add_csv
    rw [if_neg (by rw [hcond]; exact Bool.false_ne_true)]
    rw [if_neg (by simp)]
    refine congrArg Except.ok ?_
    apply List.map_congr_left
    intro row _
    show InsertCall.mk table ((csvInsRow (PyObj.pdict items) row).map fun p => p.1)
        ((csvInsRow (PyObj.pdict items) row).map fun p => p.2) = _
    rw [hrow row, List.map_map, List.map_map]
    rfl
  · intro rows₂
    rfl

theorem c5_fieldmap_projection_witness :
    add_csv "Equipment" true
        (PyObj.pdict [(PyScalar.pstr "Description", PyScalar.pstr "d"),
          (PyScalar.pstr "Name", PyScalar.pstr "")])
        [[(PyScalar.pstr "Name", PyScalar.pstr "N1"), (PyScalar.pstr "d", PyScalar.pstr "D1")]] =
      Except.ok [⟨"Equipment", [PyScalar.pstr "Description", PyScalar.pstr "Name"],
        [PyScalar.pstr "D1", PyScalar.pstr "N1"]⟩] := by
  have h := (c5_fieldmap_projection "Equipment"
    [(PyScalar.pstr "Description", PyScalar.pstr "d"), (PyScalar.pstr "Name", PyScalar.pstr "")]
    [[(PyScalar.pstr "Name", PyScalar.pstr "N1"), (PyScalar.pstr "d", PyScalar.pstr "D1")]]
    (by decide) (by decide) (by decide)).1
  rw [h]
  rfl

/-- C6 counterexample: `add_csv` performs no catalog-membership check on
its table argument — with a table name outside the catalog and an
existing file it reads the rows and performs the inserts. -/
theorem c6_counterexample_no_table_check :
    "Bogus" ∉ schemaTableNames ∧
    add_csv "Bogus" true (PyObj.scalar PyScalar.pnone)
        [[(PyScalar.pstr "A", PyScalar.pstr "1")]] =
      Except.ok [⟨"Bogus", [PyScalar.pstr "A"], [PyScalar.pstr "1"]⟩] :=
  ⟨by decide, rfl⟩

/-- C6 amended: `add_csv` validates (after the field-map shape check)
that the source file exists before reading any row: on a missing or
non-regular file it fails fast with the not-found error, no row read and
no insert performed, for every table name — catalog membership of the
table is not checked by `add_csv` itself (the command shell checks it
before calling). -/
theorem c6_failfast_on_missing_file (table : String) (fm : PyObj)
    (rows : List (List (PyScalar × PyScalar)))
    (hfm : (pyTruthy fm && (!isDict fm || !(dictValues fm).all isStr)) = false) :
    add_csv table false fm rows = Except.error CsvError.valueError := by
  unfold add_csv
  rw [if_neg (by rw [hfm]; exact Bool.false_ne_true)]
  rfl

theorem c6_failfast_on_missing_file_witness :
    add_csv "Bogus" false (PyObj.scalar PyScalar.pnone)
        [[(PyScalar.pstr "A", PyScalar.pstr "1")]] =
      Except.error CsvError.valueError :=
  c6_failfast_on_missing_file "Bogus" (PyObj.scalar PyScalar.pnone)
    [[(PyScalar.pstr "A", PyScalar.pstr "1")]] (by decide)

set_option maxRecDepth 40000 in
/-- C7 counterexample: the two sides of the validation comparison are
NOT the same function — on the canonical Metadata text the canonical
side (normalize then drop the last character) differs from the live-store
side (normalize only). -/
theorem c7_counterexample_sides_differ :
    schemaSideNorm metadataSql ≠ dbSideNorm metadataSql := by
  decide

/-- C7 amended: both sides of the validation comparison apply the same
normalization (collapse whitespace runs, trim); the canonical side then
additionally drops the final character of the normalized text — its
trailing semicolon, absent from what the engine stores — and performs no
other transformation. -/
theorem c7_canonical_side_drops_semicolon (s : String)
    (h : (pyNormalize s).data.getLast? = some ';') :
    schemaSideNorm s ++ ";" = dbSideNorm s ∧ dbSideNorm s = pyNormalize s := by
  refine ⟨?_, rfl⟩
  unfold schemaSideNorm dbSideNorm
  have hne : (pyNormalize s).data ≠ [] := by
    intro h0
    rw [h0] at h
    simp at h
  have hlast : (pyNormalize s).data.getLast hne = ';' := by
    have h2 := List.getLast?_eq_getLast (pyNormalize s).data hne
    rw [h2] at h
    exact Option.some.inj h
  calc String.mk (pyNormalize s).data.dropLast ++ ";"
      = String.mk ((pyNormalize s).data.dropLast ++ [';']) := rfl
    _ = String.mk ((pyNormalize s).data.dropLast ++ [(pyNormalize s).data.getLast hne]) := by
        rw [hlast]
    _ = String.mk (pyNormalize s).data := by rw [List.dropLast_append_getLast hne]
    _ = pyNormalize s := rfl

set_option maxRecDepth 40000 in
theorem c7_canonical_side_drops_semicolon_witness :
    (pyNormalize metadataSql).data.getLast? = some ';' ∧
      schemaSideNorm metadataSql ++ ";" = dbSideNorm metadataSql :=
  ⟨by decide, (c7_canonical_side_drops_semicolon metadataSql (by decide)).1⟩

/-- C8: two strings that differ only in whitespace — same maximal
non-whitespace runs in the same order — normalize to the same string, so
both sides of the validation comparison treat them as identical and
validation never fails on such cosmetic differences. -/
theorem c8_normalization_whitespace_invariant (s t : String)
    (h : wordsOf s.data = wordsOf t.data) :
    pyNormalize s = pyNormalize t ∧ schemaSideNorm s = schemaSideNorm t := by
  have h1 : pyNormalize s = pyNormalize t := by
    unfold pyNormalize
    rw [pyStrip_collapse_eq_joinWords s.data, pyStrip_collapse_eq_joinWords t.data, h]
  exact ⟨h1, by unfold schemaSideNorm; rw [h1]⟩

theorem c8_normalization_whitespace_invariant_witness :
    wordsOf (" CREATE  TABLE\tFoo( a )\n").data = wordsOf ("CREATE TABLE Foo( a )").data ∧
      pyNormalize " CREATE  TABLE\tFoo( a )\n" = pyNormalize "CREATE TABLE Foo( a )" :=
  ⟨by decide,
    (c8_normalization_whitespace_invariant " CREATE  TABLE\tFoo( a )\n"
      "CREATE TABLE Foo( a )" (by decide)).1⟩

/-- C9: the row mapper pairs each post-alias column label with the row
value at the same index and builds a name-keyed mapping; looking a label
up yields the value of the LAST projected column bearing that label
(later duplicates silently overwrite earlier ones), and every projected
label is present in the mapping. -/
theorem c9_record_mapper_last_wins {α : Type} (desc : List String) (row : List α)
    (h : desc.length = row.length) (k : String) :
    pyLookup k (dict_factory desc row) = lastValueFor k (desc.zip row) ∧
    (k ∈ desc → (pyLookup k (dict_factory desc row)).isSome = true) := by
  have h1 : pyLookup k (dict_factory desc row) = lastValueFor k (desc.zip row) :=
    pyLookup_pyDictOf _ k
  refine ⟨h1, fun hk => ?_⟩
  rw [h1]
  unfold lastValueFor
  rw [pyLookup_isSome_iff, List.map_reverse, List.map_fst_zip _ _ (le_of_eq h)]
  exact List.mem_reverse.mpr hk

theorem c9_record_mapper_last_wins_witness :
    pyLookup "Name" (dict_factory ["Name", "Name"] [(1 : Int), 2]) =
      lastValueFor "Name" (["Name", "Name"].zip [(1 : Int), 2]) ∧
    pyLookup "Name" (dict_factory ["Name", "Name"] [(1 : Int), 2]) = some 2 :=
  ⟨(c9_record_mapper_last_wins ["Name", "Name"] [(1 : Int), 2] (by decide) "Name").1,
    by decide⟩

/-- C10 counterexample: a truthy dict whose KEYS are not strings passes
the field-map check (only the values are inspected), so no configuration
error is raised and the import proceeds to read rows and insert —
refuting the claim for maps that are not string-to-string because of a
non-string key. -/
theorem c10_counterexample_nonstring_key_accepted :
    isFlatStringMap (PyObj.pdict [(PyScalar.pint 1, PyScalar.pstr "x")]) = false ∧
    add_csv "T" true (PyObj.pdict [(PyScalar.pint 1, PyScalar.pstr "x")])
        [[(PyScalar.pstr "A", PyScalar.pstr "1")]] =
      Except.ok [⟨"T", [PyScalar.pint 1], [PyScalar.pnone]⟩] :=
  ⟨rfl, rfl⟩

/-- C10 amended: `add_csv` raises the configuration error — before any
row is read and with no insert performed — exactly when the field map is
truthy and is either not a mapping at all or has a non-string VALUE;
non-string keys are not rejected, and a falsy field map skips the check
entirely. -/
theorem c10_typeerror_conditions (fm : PyObj) (table : String) (fileExists : Bool)
    (rows : List (List (PyScalar × PyScalar)))
    (h1 : pyTruthy fm = true)
    (h2 : isDict fm = false ∨ (dictValues fm).all isStr = false) :
    add_csv table fileExists fm rows = Except.error CsvError.typeError := by
  unfold add_csv
  have hcond : (pyTruthy fm && (!isDict fm || !(dictValues fm).all isStr)) = true := by
    rw [h1]
    rcases h2 with h | h <;> simp [h]
  rw [if_pos hcond]

theorem c10_typeerror_conditions_witness :
    pyTruthy (PyObj.pdict [(PyScalar.pstr "Name", PyScalar.pint 1)]) = true ∧
    add_csv "T" true (PyObj.pdict [(PyScalar.pstr "Name", PyScalar.pint 1)]) [] =
      Except.error CsvError.typeError :=
  ⟨by decide,
    c10_typeerror_conditions (PyObj.pdict [(PyScalar.pstr "Name", PyScalar.pint 1)])
      "T" true [] (by decide) (Or.inr (by decide))⟩

end Elephant
